import Mathlib

/-!
Verification of the real-time orchestration layer of opendatacam's
`server.js`: the stdout interception hook (rolling log buffer and video
resolution scraping), the HTTP subscription endpoints, the shutdown
handlers and the engine/recording control calls.

JavaScript strings are modelled as lists of characters (`JStr`),
JavaScript numbers that may be `NaN` as `Option Int`, and the mutable
module-level variables as explicit state records threaded through the
handlers.
-/

/-- JavaScript strings are modelled as lists of characters. -/
abbrev JStr := List Char

/-- The ASCII whitespace characters removed by JavaScript
`String.prototype.trim` (the inputs considered here contain no other
Unicode whitespace). -/
def jsIsWhitespace (c : Char) : Bool :=
  c = ' ' || c = '\t' || c = '\n' || c = '\r' || c = '\x0b' || c = '\x0c'

/-- JavaScript `String.prototype.trim`. -/
def jsTrim (s : JStr) : JStr :=
  ((s.dropWhile jsIsWhitespace).reverse.dropWhile jsIsWhitespace).reverse

/-- Numeric value of a list of decimal digit characters. -/
def digitsVal (ds : JStr) : Nat :=
  ds.foldl (fun a c => a * 10 + (c.toNat - 48)) 0

/-- Numeric value of a list of hexadecimal digit characters. -/
def hexDigitsVal (ds : JStr) : Nat :=
  ds.foldl (fun a c =>
    a * 16 + (if c.toNat ≥ 97 then c.toNat - 87
              else if c.toNat ≥ 65 then c.toNat - 55
              else c.toNat - 48)) 0

/-- Hexadecimal digit predicate used by `parseInt` radix auto-detection. -/
def isHexDigit (c : Char) : Bool :=
  c.isDigit || (65 ≤ c.toNat && c.toNat ≤ 70) || (97 ≤ c.toNat && c.toNat ≤ 102)

/-- Magnitude part of JavaScript `parseInt`: a `0x`/`0X` marker selects
hexadecimal, otherwise the longest leading run of decimal digits is taken;
no digits at all gives `NaN`, modelled `none`. -/
def jsParseIntMag (s : JStr) : Option Nat :=
  match s with
  | '0' :: c :: rest =>
    if c = 'x' ∨ c = 'X' then
      let ds := rest.takeWhile isHexDigit
      if ds = [] then none else some (hexDigitsVal ds)
    else
      some (digitsVal (('0' :: c :: rest).takeWhile Char.isDigit))
  | _ =>
    let ds := s.takeWhile Char.isDigit
    if ds = [] then none else some (digitsVal ds)

/-- JavaScript `parseInt(s)` with no radix argument: skip leading
whitespace, read an optional sign, then the magnitude; `none` models
`NaN`. -/
def jsParseInt (s : JStr) : Option Int :=
  match s.dropWhile jsIsWhitespace with
  | '-' :: rest => (jsParseIntMag rest).map (fun n => -(n : Int))
  | '+' :: rest => (jsParseIntMag rest).map (fun n => (n : Int))
  | rest => (jsParseIntMag rest).map (fun n => (n : Int))

/-- Index of the first occurrence of `sep` in `s` (JavaScript `indexOf`;
`none` models `-1`).  Only used with nonempty separators. -/
def findSep (sep : JStr) : JStr → Option Nat
  | [] => if sep = [] then some 0 else none
  | c :: rest =>
    if sep.isPrefixOf (c :: rest) then some 0
    else (findSep sep rest).map (· + 1)

/-- Fuelled worker for `jsSplit`: cut at the first occurrence of `sep` and
recurse on what follows it.  The fuel only has to dominate the number of
occurrences (`jsSplitAux_congr` below shows it is otherwise irrelevant). -/
def jsSplitAux (sep : JStr) : Nat → JStr → List JStr
  | 0, s => [s]
  | fuel + 1, s =>
    match findSep sep s with
    | none => [s]
    | some i => s.take i :: jsSplitAux sep fuel (s.drop (i + sep.length))

/-- JavaScript `String.prototype.split` with a nonempty separator. -/
def jsSplit (s sep : JStr) : List JStr :=
  jsSplitAux sep (s.length + 1) s

/-- Lines 64-68 of `server.js`: append the chunk to the buffer and, when the
result exceeds 3000 characters, keep only the last 3000
(`substring(length - 3000, length)`). -/
def jsBufferUpdate (buf text : JStr) : JStr :=
  let nb := buf ++ text
  if nb.length > 3000 then nb.drop (nb.length - 3000) else nb

/-- The `videoResolution` object `{w, h}`; a component is `none` when the
JavaScript value is `NaN` (a failed `parseInt`). -/
structure Resolution where
  w : Option Int
  h : Option Int
deriving DecidableEq

/-- The two mutable globals of the stdout interception code, lines 39 and
49 of `server.js`. -/
structure InterceptState where
  videoResolution : Option Resolution
  stdoutBuffer : JStr
deriving DecidableEq

/-- Result of one invocation of the intercept callback: `threw` records
whether the invocation raised a `TypeError` to its caller, and `state` is
the state of the globals afterwards (they survive the throw). -/
structure CallOutcome where
  threw : Bool
  state : InterceptState
deriving DecidableEq

/-- The marker scanned for by line 55 of `server.js`. -/
def MARKER : JStr := "Video stream:".toList

/-- The separator used by the `split` on line 56 of `server.js`. -/
def STREAMSEP : JStr := "stream:".toList

/-- Lines 56-61 of `server.js`: the `{w, h}` value the callback stores,
computed from the whole chunk as `split("stream:")[1]`, cut at the first
newline, `split("x")`, then `parseInt` of the trimmed first two parts.
`none` models the cases where the JavaScript code raises a `TypeError`
instead of storing anything (`splitOnStream[1]` being `undefined`, which
cannot happen under the marker guard, or `ratio.split("x")[1]` being
`undefined` when the segment contains no `x`). -/
def resolutionFromChunk (text : JStr) : Option Resolution :=
  match (jsSplit text STREAMSEP).get? 1 with
  | none => none
  | some afterSep =>
    let ratio := ((jsSplit afterSep ['\n']).get? 0).getD []
    let parts := jsSplit ratio ['x']
    match parts.get? 1 with
    | none => none
    | some p1 =>
      some { w := jsParseInt (jsTrim (((parts.get? 0)).getD []))
             h := jsParseInt (jsTrim p1) }

/-- Lines 50-69 of `server.js`: the `intercept` callback.  When the marker
`"Video stream:"` occurs in the chunk, the resolution is parsed from the
text after the first `"stream:"` and stored; a `TypeError` inside that
block (modelled by `resolutionFromChunk = none`) propagates to the caller
before the buffer append on line 64 is reached. -/
def interceptCallback (s : InterceptState) (text : JStr) : CallOutcome :=
  if (findSep MARKER text).isSome then
    match resolutionFromChunk text with
    | none => { threw := true, state := s }
    | some r =>
      { threw := false
        state := { videoResolution := some r
                   stdoutBuffer := jsBufferUpdate s.stdoutBuffer text } }
  else
    { threw := false
      state := { s with stdoutBuffer := jsBufferUpdate s.stdoutBuffer text } }

/-- Lines 39-47 of `server.js`: `videoResolution` starts `null` and is
preset to `{w: 1280, h: 720}` under `SIMULATION_MODE`; `stdoutBuffer`
starts empty. -/
def initInterceptState (simulationMode : Bool) : InterceptState :=
  { videoResolution :=
      if simulationMode then some { w := some 1280, h := some 720 } else none
    stdoutBuffer := [] }

/-- Feed a list of chunks to the callback in order, keeping whatever state
a raised invocation leaves behind. -/
def runChunks (s : InterceptState) (chunks : List JStr) : InterceptState :=
  chunks.foldl (fun st c => (interceptCallback st c).state) s

/-- True when no invocation of the callback raises while processing
`chunks` starting from `s`. -/
def runNoThrow (s : InterceptState) : List JStr → Bool
  | [] => true
  | c :: rest =>
    let o := interceptCallback s c
    !o.threw && runNoThrow o.state rest

/-- Concatenation of all chunks fed so far. -/
def concatChunks (chunks : List JStr) : JStr := chunks.flatten

/-- The last `min 3000 (length l)` characters of `l`. -/
def tailTrunc (l : JStr) : JStr := l.drop (l.length - 3000)

/-- Line 129 of `server.js`: the `GET /webcam/resolution` handler returns
the current `videoResolution` value. -/
def webcamResolutionResponse (s : InterceptState) : Option Resolution :=
  s.videoResolution

/-- One MJPEG relay created by `new MjpegProxy(...)`: its upstream
connection to the engine's video port and its client response channel. -/
structure MjpegConn where
  upstreamOpen : Bool
  clientOpen : Bool
deriving DecidableEq

/-- The live outbound channels of the server: every MJPEG proxy instance
created so far (lines 109-113 of `server.js` construct a fresh one per
request), the current SSE subscriber, and the SSE subscribers that have
been closed. -/
structure StreamState where
  mjpegConns : List MjpegConn
  sseSubscriber : Option Nat
  closedSse : List Nat
deriving DecidableEq

/-- Lines 109-113 of `server.js`: the `GET /webcam/stream` handler runs
`new MjpegProxy(url).proxyRequest(req, res)` — a fresh proxy instance per
request, holding no reference to (and therefore not closing) any earlier
instance's upstream connection or client channel. -/
def handleWebcamStream (s : StreamState) : StreamState :=
  { s with mjpegConns := s.mjpegConns ++ [{ upstreamOpen := true, clientOpen := true }] }

/-- Modelled from the spec: `Opendatacam.startStreamingData` (in
`server/Opendatacam.js`, which is not under `src/`) registers the response
channel of `GET /tracker/sse` (lines 274-276 of `server.js`) as the sole
SSE subscriber, closing and replacing any prior subscriber. -/
def handleTrackerSse (s : StreamState) (clientId : Nat) : StreamState :=
  match s.sseSubscriber with
  | some old =>
    { s with sseSubscriber := some clientId, closedSse := old :: s.closedSse }
  | none => { s with sseSubscriber := some clientId }

/-- The server starts with no live outbound channel. -/
def initStreamState : StreamState :=
  { mjpegConns := [], sseSubscriber := none, closedSse := [] }

/-- Counters observable across a shutdown: how many times
`Opendatacam.clean()` has run and whether `process.exit()` was requested. -/
structure ShutdownState where
  cleanCalls : Nat
  exitRequested : Bool
deriving DecidableEq

/-- Lines 527-533 of `server.js`, bound with `{cleanup:true}` and
registered on the `exit` event: calls `Opendatacam.clean()`
unconditionally (the `options.cleanup` guard is commented out) and, having
no `exit` option, does not call `process.exit`. -/
def exitEventHandler (s : ShutdownState) : ShutdownState :=
  { s with cleanCalls := s.cleanCalls + 1 }

/-- Node's `process.exit()`: fires the registered `exit` listener
synchronously before the process dies. -/
def processExit (s : ShutdownState) : ShutdownState :=
  exitEventHandler { s with exitRequested := true }

/-- Lines 527-533 of `server.js`, bound with `{exit:true}` and registered
on `SIGINT`/`SIGUSR1`/`SIGUSR2`: calls `Opendatacam.clean()` and then
`process.exit()`. -/
def signalEventHandler (s : ShutdownState) : ShutdownState :=
  processExit { s with cleanCalls := s.cleanCalls + 1 }

/-- The shutdown events handled by lines 536-543 of `server.js`. -/
inductive ShutdownEvent
  | sigint
  | sigusr1
  | sigusr2
  | normalExit
deriving DecidableEq

/-- Dispatch of one shutdown event to the handler `server.js` registers
for it: the three signals run the `{exit:true}` binding, a normal process
exit runs the `{cleanup:true}` binding. -/
def shutdown : ShutdownEvent → ShutdownState → ShutdownState
  | .sigint, s => signalEventHandler s
  | .sigusr1, s => signalEventHandler s
  | .sigusr2, s => signalEventHandler s
  | .normalExit, s => exitEventHandler s

/-- Observable process state for the top-level fault boundary: whether the
process is still running, and the console log. -/
structure ProcessState where
  alive : Bool
  consoleLog : List JStr
deriving DecidableEq

/-- The prefix of the message logged by the `uncaughtException` handler. -/
def UNCAUGHT_MSG : JStr :=
  "Pheew ....! Something unexpected happened. This should be handled more gracefully. I am sorry. The culprit is: ".toList

/-- Lines 549-552 of `server.js`: the `uncaughtException` handler logs the
error and returns; it neither rethrows nor calls `process.exit`. -/
def uncaughtExceptionHandler (s : ProcessState) (err : JStr) : ProcessState :=
  { s with consoleLog := s.consoleLog ++ [UNCAUGHT_MSG ++ err] }

/-- The coarse lifecycle state of the detection engine process. -/
inductive EngineProcessState
  | NotStarted
  | Starting
  | Started
deriving DecidableEq

/-- State of the engine supervisor: its lifecycle flag and the number of
engine processes spawned so far. -/
structure EngineState where
  procState : EngineProcessState
  spawnCount : Nat
deriving DecidableEq

/-- Modelled from the spec: `YOLO.start()` (in
`server/processes/YOLO.js`, which is not under `src/`; line 82 of
`server.js` calls it with the comment "Inside yolo process will check is
started").  If the engine is `Starting` or `Started` the call is a no-op;
otherwise it spawns the engine and moves to `Starting`. -/
def yoloStart (s : EngineState) : EngineState :=
  match s.procState with
  | .NotStarted => { procState := .Starting, spawnCount := s.spawnCount + 1 }
  | .Starting => s
  | .Started => s

/-- Lines 80-93 of `server.js`: every `GET /` request calls
`YOLO.start()`. -/
def handleIndexRequest (s : EngineState) : EngineState :=
  yoloStart s

/-- State of the recording controller: whether a recording is active, the
start date of the current session, and the number of times a finished
session has been persisted. -/
structure RecordingState where
  isRecording : Bool
  dateStart : Option Nat
  persistCalls : Nat
deriving DecidableEq

/-- Modelled from the spec: `Opendatacam.startRecording()` (in
`server/Opendatacam.js`, not under `src/`), reached from the
`GET /recording/start` handler on line 290 of `server.js`.  If already
recording it is a no-op (the session is not recreated); otherwise it
creates a session stamped with the current time. -/
def startRecording (now : Nat) (s : RecordingState) : RecordingState :=
  if s.isRecording then s
  else { isRecording := true, dateStart := some now, persistCalls := s.persistCalls }

/-- Modelled from the spec: `Opendatacam.stopRecording()` (in
`server/Opendatacam.js`, not under `src/`), reached from the
`GET /recording/stop` handler on line 305 of `server.js`.  If not
recording it is a no-op and performs no persistence; otherwise it
finalizes and persists the session. -/
def stopRecording (s : RecordingState) : RecordingState :=
  if s.isRecording then
    { isRecording := false, dateStart := s.dateStart, persistCalls := s.persistCalls + 1 }
  else s

/-- A state in which a resolution has already been announced, used as the
prior state of counterexamples. -/
def c1PriorState : InterceptState :=
  { videoResolution := some { w := some 1, h := some 2 }, stdoutBuffer := [] }

/-- A chunk whose announcement line has a malformed width. -/
def c1BadChunk : JStr := "Video stream: notanumber x 480\n".toList

/-- A chunk whose announcement line contains no `x` at all. -/
def c2BadChunk : JStr := "Video stream: garbage\n".toList

/-- A well-formed announcement chunk. -/
def chunk640 : JStr := "Video stream: 640 x 480\n".toList

/-- A chunk in which a second `"stream:"` occurs between the marker's
occurrence and the next newline. -/
def c10BadChunk : JStr := "Video stream: 6 stream: x 9\n".toList

/-- A chunk in which `"stream:"` occurs before the announcement line. -/
def c10EarlyChunk : JStr := "log stream: 1 x 2\nVideo stream: 640 x 480\n".toList

/-- A chunk carrying a well-formed announcement preceded by an unrelated
`"stream:"` occurrence. -/
def c3BadChunk : JStr := "data stream: 9 x 9\nVideo stream: 640 x 480\n".toList

/-- The whitespace-tolerant content of an announcement line after the
marker: `<ws1><wds><ws2>x<ws3><hds><ws4>`, where the `ws` runs are
(newline-free) whitespace and `wds`/`hds` are the digit strings. -/
def announcementLine (ws1 wds ws2 ws3 hds ws4 : JStr) : JStr :=
  ws1 ++ (wds ++ (ws2 ++ ('x' :: (ws3 ++ (hds ++ ws4)))))

/-- An engine chunk carrying a well-formed resolution announcement: an
arbitrary prefix, the marker `"Video stream:"`, the whitespace-tolerant
line content, the terminating newline, and arbitrary trailing text. -/
def announcementChunk (pre ws1 wds ws2 ws3 hds ws4 post : JStr) : JStr :=
  pre ++ ("Video stream:".toList
    ++ (announcementLine ws1 wds ws2 ws3 hds ws4 ++ ('\n' :: post)))

/-- The part of a string before its next `"stream:"` occurrence (the
whole string when there is none): JavaScript's `split("stream:")` cuts
element 1 there. -/
def truncAtNextSep (r : JStr) : JStr :=
  match findSep STREAMSEP r with
  | none => r
  | some j => r.take j

/-- Everything before the first newline of a string. -/
def firstLine (l : JStr) : JStr := l.takeWhile (fun c => !(c == '\n'))

/-- A concrete announcement chunk combining an arbitrary prefix, doubled
whitespace and trailing text with a later `"stream:"` occurrence. -/
def c3WitnessChunk : JStr :=
  announcementChunk "ready\n".toList "  ".toList "640".toList " ".toList
    " ".toList "480".toList [] "later stream: junk".toList

/-- Lines 59-61 of `server.js` in isolation: the parse of a ratio
segment — `split("x")`, then `parseInt` of the trimmed first two parts;
`none` models the `TypeError` raised when the segment has no `x`. -/
def ratioParse (ratio : JStr) : Option Resolution :=
  let parts := jsSplit ratio ['x']
  match parts.get? 1 with
  | none => none
  | some p1 =>
    some { w := jsParseInt (jsTrim ((parts.get? 0).getD []))
           h := jsParseInt (jsTrim p1) }

theorem intercept_state_of_threw (s : InterceptState) (t : JStr)
    (h : (interceptCallback s t).threw = true) :
    (interceptCallback s t).state = s := by
  by_cases hm : (findSep MARKER t).isSome = true
  · cases hr : resolutionFromChunk t with
    | none => simp [interceptCallback, hm, hr]
    | some r => simp [interceptCallback, hm, hr] at h
  · simp [interceptCallback, hm] at h

theorem intercept_buffer_of_not_threw (s : InterceptState) (t : JStr)
    (h : (interceptCallback s t).threw = false) :
    (interceptCallback s t).state.stdoutBuffer = jsBufferUpdate s.stdoutBuffer t := by
  by_cases hm : (findSep MARKER t).isSome = true
  · cases hr : resolutionFromChunk t with
    | none => simp [interceptCallback, hm, hr] at h
    | some r => simp [interceptCallback, hm, hr]
  · simp [interceptCallback, hm]

theorem intercept_preserves_isSome (s : InterceptState) (t : JStr)
    (h : s.videoResolution.isSome = true) :
    (interceptCallback s t).state.videoResolution.isSome = true := by
  by_cases hm : (findSep MARKER t).isSome = true
  · cases hr : resolutionFromChunk t with
    | none => simpa [interceptCallback, hm, hr] using h
    | some r => simp [interceptCallback, hm, hr]
  · simpa [interceptCallback, hm] using h

theorem length_tailTrunc_le (l : JStr) : (tailTrunc l).length ≤ 3000 := by
  simp only [tailTrunc, List.length_drop]
  omega

theorem jsBufferUpdate_tailTrunc (a t : JStr) :
    jsBufferUpdate (tailTrunc a) t = tailTrunc (a ++ t) := by
  simp only [jsBufferUpdate, tailTrunc]
  by_cases hla : a.length ≤ 3000
  · have h0 : a.length - 3000 = 0 := by omega
    rw [h0, List.drop_zero]
    split
    · rfl
    · next hcond =>
      have hz : (a ++ t).length - 3000 = 0 := by
        simp only [List.length_append] at hcond ⊢
        omega
      rw [hz, List.drop_zero]
  · have hd : (a.drop (a.length - 3000)).length = 3000 := by
      rw [List.length_drop]; omega
    split
    · next hcond =>
      rw [List.length_append, hd] at hcond ⊢
      have e0 : 3000 + t.length - 3000 = t.length := by omega
      rw [e0, List.drop_append_eq_append_drop, List.drop_append_eq_append_drop,
        List.drop_drop, hd]
      have e1 : a.length - 3000 + t.length = a.length + t.length - 3000 := by omega
      have e2 : t.length - 3000 = a.length + t.length - 3000 - a.length := by omega
      rw [e1, e2, List.length_append]
    · next hcond =>
      rw [List.length_append, hd] at hcond
      have ht : t = [] := List.length_eq_zero.mp (by omega)
      subst ht
      rw [List.append_nil, List.append_nil]

theorem runChunks_buffer (chunks : List JStr) :
    ∀ (s : InterceptState) (acc : JStr), s.stdoutBuffer = tailTrunc acc →
      runNoThrow s chunks = true →
      (runChunks s chunks).stdoutBuffer = tailTrunc (acc ++ concatChunks chunks) := by
  induction chunks with
  | nil =>
    intro s acc hbuf _
    simpa [runChunks, concatChunks] using hbuf
  | cons c rest ih =>
    intro s acc hbuf hnt
    simp only [runNoThrow, Bool.and_eq_true, Bool.not_eq_true'] at hnt
    obtain ⟨hthrew, hrest⟩ := hnt
    have hstep : (interceptCallback s c).state.stdoutBuffer = tailTrunc (acc ++ c) := by
      rw [intercept_buffer_of_not_threw s c hthrew, hbuf, jsBufferUpdate_tailTrunc]
    have := ih (interceptCallback s c).state (acc ++ c) hstep hrest
    simpa [runChunks, concatChunks, List.append_assoc] using this

theorem runChunks_preserves_isSome (chunks : List JStr) :
    ∀ s : InterceptState, s.videoResolution.isSome = true →
      (runChunks s chunks).videoResolution.isSome = true := by
  induction chunks with
  | nil => intro s h; simpa [runChunks] using h
  | cons c rest ih =>
    intro s h
    have := ih (interceptCallback s c).state (intercept_preserves_isSome s c h)
    simpa [runChunks] using this

/-- C1 counterexample: feeding a chunk whose marker line has a malformed
width (`"Video stream: notanumber x 480\n"`) does not retain the prior
VideoResolution `{1, 2}` — the callback returns without raising but
overwrites it with `{NaN, 480}` (a corrupted value). -/
theorem intercept_malformed_overwrites_resolution :
    (interceptCallback c1PriorState c1BadChunk).threw = false
      ∧ (interceptCallback c1PriorState c1BadChunk).state.videoResolution
          = some { w := none, h := some 480 }
      ∧ decide ((interceptCallback c1PriorState c1BadChunk).state.videoResolution
          = c1PriorState.videoResolution) = false := by decide

/-- C1 (amended): on a chunk containing the marker, the callback either
raises a TypeError to its caller leaving both globals unchanged (the case
where the segment after the first `"stream:"`, cut at the newline,
contains no `x`), or returns normally having overwritten VideoResolution
with the parse result, where an unparseable integer is stored as NaN; the
prior value is not retained in either successful-return case. -/
theorem intercept_marker_contract (s : InterceptState) (text : JStr)
    (h : (findSep MARKER text).isSome = true) :
    ((interceptCallback s text).threw = true ∧ (interceptCallback s text).state = s)
      ∨ ((interceptCallback s text).threw = false
          ∧ (interceptCallback s text).state.videoResolution = resolutionFromChunk text) := by
  cases hr : resolutionFromChunk text with
  | none => exact Or.inl (by simp [interceptCallback, h, hr])
  | some r => exact Or.inr (by simp [interceptCallback, h, hr])

/-- Witness for `intercept_marker_contract` at the chunk
`"Video stream: 640 x 480\n"`. -/
theorem intercept_marker_contract_witness :
    (findSep MARKER chunk640).isSome = true
      ∧ (((interceptCallback (initInterceptState false) chunk640).threw = true
            ∧ (interceptCallback (initInterceptState false) chunk640).state = initInterceptState false)
          ∨ ((interceptCallback (initInterceptState false) chunk640).threw = false
              ∧ (interceptCallback (initInterceptState false) chunk640).state.videoResolution
                  = resolutionFromChunk chunk640)) :=
  ⟨by decide, intercept_marker_contract (initInterceptState false) chunk640 (by decide)⟩

/-- C2 counterexample: after feeding the single chunk
`"Video stream: garbage\n"` (marker present, no `x` on the line) the
callback raises before the buffer append, so the log buffer stays empty
instead of holding the 3000-character suffix of the fed text. -/
theorem buffer_suffix_fails_on_raising_chunk :
    (runChunks (initInterceptState false) [c2BadChunk]).stdoutBuffer = []
      ∧ tailTrunc (concatChunks [c2BadChunk]) = c2BadChunk
      ∧ decide ((runChunks (initInterceptState false) [c2BadChunk]).stdoutBuffer
          = tailTrunc (concatChunks [c2BadChunk])) = false := by decide

/-- C2 (amended): for every finite sequence of chunks on which no callback
invocation raises (the resolution parser never hits a line without an
`x`), after each call the log buffer is exactly the suffix of the
concatenation of all chunks fed so far truncated to 3000 characters, and
its length is at most 3000. -/
theorem buffer_rolling_tail (sim : Bool) (chunks : List JStr)
    (h : runNoThrow (initInterceptState sim) chunks = true) :
    (runChunks (initInterceptState sim) chunks).stdoutBuffer = tailTrunc (concatChunks chunks)
      ∧ (runChunks (initInterceptState sim) chunks).stdoutBuffer.length ≤ 3000 := by
  have hb : (initInterceptState sim).stdoutBuffer = tailTrunc [] := rfl
  have hmain := runChunks_buffer chunks (initInterceptState sim) [] hb h
  rw [List.nil_append] at hmain
  exact ⟨hmain, hmain ▸ length_tailTrunc_le _⟩

/-- Witness for `buffer_rolling_tail` on two ordinary chunks. -/
theorem buffer_rolling_tail_witness :
    runNoThrow (initInterceptState false) ["hello ".toList, "world".toList] = true
      ∧ ((runChunks (initInterceptState false) ["hello ".toList, "world".toList]).stdoutBuffer
            = tailTrunc (concatChunks ["hello ".toList, "world".toList])
          ∧ (runChunks (initInterceptState false)
              ["hello ".toList, "world".toList]).stdoutBuffer.length ≤ 3000) :=
  ⟨by decide, buffer_rolling_tail false ["hello ".toList, "world".toList] (by decide)⟩

/-- C3 counterexample: the chunk
`"data stream: 9 x 9\nVideo stream: 640 x 480\n"` contains a well-formed
announcement line, yet the callback stores `{9, 9}` — the remainder of the
earlier `"stream:"` occurrence — not `{640, 480}`. -/
theorem wellformed_announcement_not_applied :
    (interceptCallback (initInterceptState false) c3BadChunk).state.videoResolution
        = some { w := some 9, h := some 9 }
      ∧ decide ((interceptCallback (initInterceptState false) c3BadChunk).state.videoResolution
          = some { w := some 640, h := some 480 }) = false := by decide

/-- C4: evaluating the `GET /webcam/stream` handler twice from the initial
state.  Each request constructs a fresh `MjpegProxy`, so after the second
request both clients' channels and both upstream connections are still
open: two live MJPEG subscriptions coexist and the first is never closed,
contradicting the claim (and the apidoc comment on line 104 of
`server.js`, which promises that the first HTTP connection is closed). -/
theorem mjpeg_second_client_leaves_first_open :
    (handleWebcamStream (handleWebcamStream initStreamState)).mjpegConns
        = [{ upstreamOpen := true, clientOpen := true },
           { upstreamOpen := true, clientOpen := true }]
      ∧ ((handleWebcamStream (handleWebcamStream initStreamState)).mjpegConns.countP
          (fun c => c.clientOpen)) = 2 := by decide

/-- C5 counterexample: a SIGINT shutdown runs `Opendatacam.clean()` twice,
once in the signal handler and once more from the `exit` listener fired by
`process.exit()` — not exactly once. -/
theorem sigint_clean_called_twice :
    (shutdown ShutdownEvent.sigint { cleanCalls := 0, exitRequested := false }).cleanCalls = 2
      ∧ decide ((shutdown ShutdownEvent.sigint
          { cleanCalls := 0, exitRequested := false }).cleanCalls = 1) = false := by decide

/-- C5 (amended): every shutdown event invokes the cleanup at least once;
each of the three signal events invokes it exactly twice (handler plus the
`exit` listener that `process.exit()` fires), and a normal process exit
invokes it exactly once. -/
theorem shutdown_clean_call_count (e : ShutdownEvent) (s : ShutdownState) :
    (shutdown e s).cleanCalls
      = s.cleanCalls + (if e = ShutdownEvent.normalExit then 1 else 2) := by
  cases e <;>
    simp [shutdown, signalEventHandler, processExit, exitEventHandler]

/-- C6: the `uncaughtException` handler leaves the process-alive flag
untouched (it neither rethrows nor exits) and only appends a single log
entry recording the error. -/
theorem uncaught_exception_keeps_process_alive (s : ProcessState) (err : JStr) :
    (uncaughtExceptionHandler s err).alive = s.alive
      ∧ (uncaughtExceptionHandler s err).consoleLog = s.consoleLog ++ [UNCAUGHT_MSG ++ err] := by
  simp [uncaughtExceptionHandler]

/-- C7: `YOLO.start()` is idempotent — a second call in immediate
succession is a no-op, so two calls from the `NotStarted` init state spawn
exactly one engine process and leave the state `Starting`. -/
theorem yolo_start_idempotent :
    (∀ s : EngineState, yoloStart (yoloStart s) = yoloStart s)
      ∧ (handleIndexRequest (handleIndexRequest
          { procState := EngineProcessState.NotStarted, spawnCount := 0 })).spawnCount = 1
      ∧ (handleIndexRequest (handleIndexRequest
          { procState := EngineProcessState.NotStarted, spawnCount := 0 })).procState
          = EngineProcessState.Starting := by
  refine ⟨?_, by decide, by decide⟩
  intro s
  cases h : s.procState <;> simp [yoloStart, h]

/-- C8: redundant recording control calls are no-ops: a second `start()`
keeps the original session's `dateStart` (the whole state, in fact), and
`stop()` while not recording performs no persistence call and leaves the
state unchanged at NotRecording. -/
theorem recording_redundant_calls_noop (s : RecordingState) (t1 t2 : Nat)
    (h : s.isRecording = false) :
    (startRecording t2 (startRecording t1 s)).dateStart = some t1
      ∧ startRecording t2 (startRecording t1 s) = startRecording t1 s
      ∧ stopRecording s = s := by
  simp [startRecording, stopRecording, h]

/-- Witness for `recording_redundant_calls_noop` from the fresh
NotRecording state with timestamps 5 and 9. -/
theorem recording_redundant_calls_noop_witness :
    ({ isRecording := false, dateStart := none, persistCalls := 0 } : RecordingState).isRecording = false
      ∧ ((startRecording 9 (startRecording 5
            { isRecording := false, dateStart := none, persistCalls := 0 })).dateStart = some 5
          ∧ startRecording 9 (startRecording 5
              { isRecording := false, dateStart := none, persistCalls := 0 })
              = startRecording 5 { isRecording := false, dateStart := none, persistCalls := 0 }
          ∧ stopRecording { isRecording := false, dateStart := none, persistCalls := 0 }
              = { isRecording := false, dateStart := none, persistCalls := 0 }) :=
  ⟨rfl, recording_redundant_calls_noop { isRecording := false, dateStart := none, persistCalls := 0 } 5 9 rfl⟩

/-- C9: under the simulated-hardware configuration the resolution is
preset to `{1280, 720}` at init, and feeding any sequence of chunks never
resets it to null, so `GET /webcam/resolution` never returns null in that
mode. -/
theorem simulation_resolution_never_null (chunks : List JStr) :
    webcamResolutionResponse (initInterceptState true) = some { w := some 1280, h := some 720 }
      ∧ (webcamResolutionResponse (runChunks (initInterceptState true) chunks)).isSome = true :=
  ⟨rfl, runChunks_preserves_isSome chunks (initInterceptState true) rfl⟩

/-- C10 counterexample: for `"Video stream: 6 stream: x 9\n"` the claim's
description (parse the text after the first `"stream:"` up to the next
newline) predicts the segment `" 6 stream: x 9"` and hence the stored
value `{6, 9}`; the code instead cuts `split("stream:")[1]` at the second
occurrence, obtains `" 6 "`, finds no `x` and raises, leaving the state
unchanged. -/
theorem parse_not_cut_only_at_newline :
    (interceptCallback (initInterceptState false) c10BadChunk).threw = true
      ∧ (interceptCallback (initInterceptState false) c10BadChunk).state = initInterceptState false
      ∧ decide ((interceptCallback (initInterceptState false) c10BadChunk).state.videoResolution
          = some { w := some 6, h := some 9 }) = false := by decide

theorem findSep_cons (sep : JStr) (c : Char) (rest : JStr) :
    findSep sep (c :: rest)
      = if sep.isPrefixOf (c :: rest) then some 0 else (findSep sep rest).map (· + 1) := rfl

theorem findSep_cons_not_pre (sep : JStr) (c : Char) (rest : JStr)
    (h : sep.isPrefixOf (c :: rest) = false) :
    findSep sep (c :: rest) = (findSep sep rest).map (· + 1) := by
  simp [findSep_cons, h]

theorem findSep_of_isPrefixOf (sep s : JStr) (h : sep.isPrefixOf s = true) :
    findSep sep s = some 0 := by
  cases s with
  | nil =>
    have hsep : sep = [] := by
      cases sep with
      | nil => rfl
      | cons a as => simp [List.isPrefixOf] at h
    simp [findSep, hsep]
  | cons c rest => simp [findSep_cons, h]

theorem findSep_le (sep : JStr) :
    ∀ (s : JStr) (i : Nat), findSep sep s = some i → i + sep.length ≤ s.length := by
  intro s
  induction s with
  | nil =>
    intro i h
    by_cases hsep : sep = []
    · subst hsep
      simp [findSep] at h
      omega
    · simp [findSep, hsep] at h
  | cons c rest ih =>
    intro i h
    rw [findSep_cons] at h
    by_cases hp : sep.isPrefixOf (c :: rest) = true
    · rw [if_pos hp] at h
      have hlen : sep.length ≤ (c :: rest).length :=
        (List.isPrefixOf_iff_prefix.mp hp).length_le
      have : i = 0 := by simpa using h.symm
      omega
    · rw [if_neg hp] at h
      obtain ⟨j, hj, hij⟩ := Option.map_eq_some'.mp h
      have := ih j hj
      simp only [List.length_cons]
      omega

theorem jsSplitAux_congr (sep : JStr) (hsep : sep ≠ []) :
    ∀ (f1 f2 : Nat) (s : JStr), s.length < f1 → s.length < f2 →
      jsSplitAux sep f1 s = jsSplitAux sep f2 s := by
  intro f1
  induction f1 with
  | zero => intro f2 s h1 _; exact absurd h1 (Nat.not_lt_zero _)
  | succ k ih =>
    intro f2 s h1 h2
    cases f2 with
    | zero => exact absurd h2 (Nat.not_lt_zero _)
    | succ m =>
      simp only [jsSplitAux]
      cases hfs : findSep sep s with
      | none => rfl
      | some i =>
        have hb := findSep_le sep s i hfs
        have hlen : 1 ≤ sep.length := List.length_pos.mpr hsep
        have hdl : (s.drop (i + sep.length)).length = s.length - (i + sep.length) :=
          List.length_drop _ _
        show s.take i :: jsSplitAux sep k (s.drop (i + sep.length))
            = s.take i :: jsSplitAux sep m (s.drop (i + sep.length))
        congr 1
        exact ih m (s.drop (i + sep.length)) (by omega) (by omega)

theorem jsSplit_of_none (s sep : JStr) (h : findSep sep s = none) : jsSplit s sep = [s] := by
  unfold jsSplit
  simp only [jsSplitAux, h]

theorem jsSplit_of_some (s sep : JStr) (i : Nat) (hsep : sep ≠ []) (h : findSep sep s = some i) :
    jsSplit s sep = s.take i :: jsSplit (s.drop (i + sep.length)) sep := by
  unfold jsSplit
  simp only [jsSplitAux, h]
  congr 1
  have hb := findSep_le sep s i h
  have hlen : 1 ≤ sep.length := List.length_pos.mpr hsep
  have hdl : (s.drop (i + sep.length)).length = s.length - (i + sep.length) :=
    List.length_drop _ _
  exact jsSplitAux_congr sep hsep s.length ((s.drop (i + sep.length)).length + 1)
    (s.drop (i + sep.length)) (by omega) (by omega)

theorem findSep_singleton_append (c : Char) (a b : JStr) (h : ∀ x ∈ a, x ≠ c) :
    findSep [c] (a ++ b) = (findSep [c] b).map (· + a.length) := by
  induction a with
  | nil =>
    simp only [List.nil_append, List.length_nil]
    cases findSep [c] b <;> simp
  | cons d a' ih =>
    have hd : d ≠ c := h d (by simp)
    have hpre : List.isPrefixOf [c] (d :: (a' ++ b)) = false := by
      simp [List.isPrefixOf]
      exact fun h2 => hd h2.symm
    rw [List.cons_append, findSep_cons_not_pre _ _ _ hpre,
      ih (fun x hx => h x (by simp [hx]))]
    cases findSep [c] b with
    | none => simp
    | some v => simp; omega

theorem findSep_singleton_none (c : Char) (a : JStr) (h : ∀ x ∈ a, x ≠ c) :
    findSep [c] a = none := by
  induction a with
  | nil => simp [findSep]
  | cons d a' ih =>
    have hd : d ≠ c := h d (by simp)
    have hpre : List.isPrefixOf [c] (d :: a') = false := by
      simp [List.isPrefixOf]
      exact fun h2 => hd h2.symm
    rw [findSep_cons_not_pre _ _ _ hpre, ih (fun x hx => h x (by simp [hx]))]
    rfl

theorem takeWhile_all (p : Char → Bool) (l : JStr) (h : ∀ c ∈ l, p c = true) :
    l.takeWhile p = l := by
  induction l with
  | nil => rfl
  | cons c rest ih =>
    rw [List.takeWhile_cons, if_pos (h c (by simp)), ih (fun x hx => h x (by simp [hx]))]

theorem dropWhile_none_dropped (p : Char → Bool) (l : JStr) (h : ∀ c ∈ l, p c = false) :
    l.dropWhile p = l := by
  cases l with
  | nil => rfl
  | cons c rest => rw [List.dropWhile_cons, if_neg (by simp [h c (by simp)])]

theorem digit_ne_nl (c : Char) (h : c.isDigit = true) : c ≠ '\n' := by
  intro he
  subst he
  exact absurd h (by decide)

theorem digit_ne_x (c : Char) (h : c.isDigit = true) : c ≠ 'x' := by
  intro he
  subst he
  exact absurd h (by decide)

theorem digit_not_ws (c : Char) (h : c.isDigit = true) : jsIsWhitespace c = false := by
  have h1 : c ≠ ' ' := by intro he; subst he; exact absurd h (by decide)
  have h2 : c ≠ '\t' := by intro he; subst he; exact absurd h (by decide)
  have h3 : c ≠ '\n' := digit_ne_nl c h
  have h4 : c ≠ '\r' := by intro he; subst he; exact absurd h (by decide)
  have h5 : c ≠ '\x0b' := by intro he; subst he; exact absurd h (by decide)
  have h6 : c ≠ '\x0c' := by intro he; subst he; exact absurd h (by decide)
  simp [jsIsWhitespace, h1, h2, h3, h4, h5, h6]

theorem jsParseIntMag_digits (l : JStr) (hne : l ≠ []) (h : ∀ c ∈ l, c.isDigit = true) :
    jsParseIntMag l = some (digitsVal l) := by
  have htw : l.takeWhile Char.isDigit = l := takeWhile_all _ _ h
  unfold jsParseIntMag
  split
  · next c2 r2 =>
    have hc2 : c2.isDigit = true := h c2 (by simp)
    have hx : ¬(c2 = 'x' ∨ c2 = 'X') := by
      rintro (he | he) <;> (subst he; exact absurd hc2 (by decide))
    rw [if_neg hx, htw]
  · simp only [htw]
    rw [if_neg hne]

theorem jsParseInt_digits (l : JStr) (hne : l ≠ []) (h : ∀ c ∈ l, c.isDigit = true) :
    jsParseInt l = some ((digitsVal l : Nat) : Int) := by
  have hws : l.dropWhile jsIsWhitespace = l :=
    dropWhile_none_dropped _ _ (fun x hx => digit_not_ws x (h x hx))
  unfold jsParseInt
  rw [hws]
  split
  · next r =>
    have : ('-' : Char).isDigit = true := h '-' (by simp)
    exact absurd this (by decide)
  · next r =>
    have : ('+' : Char).isDigit = true := h '+' (by simp)
    exact absurd this (by decide)
  · rw [jsParseIntMag_digits l hne h]
    rfl

theorem findSep_streamsep_at6 (tail : JStr) :
    findSep STREAMSEP
      ('V' :: 'i' :: 'd' :: 'e' :: 'o' :: ' ' :: 's' :: 't' :: 'r' :: 'e' :: 'a' :: 'm' :: ':' :: tail)
      = some 6 := by
  have h0 : findSep STREAMSEP ('s' :: 't' :: 'r' :: 'e' :: 'a' :: 'm' :: ':' :: tail) = some 0 :=
    findSep_of_isPrefixOf _ _ (by simp [STREAMSEP, List.isPrefixOf])
  have h1 : findSep STREAMSEP (' ' :: 's' :: 't' :: 'r' :: 'e' :: 'a' :: 'm' :: ':' :: tail)
      = (findSep STREAMSEP ('s' :: 't' :: 'r' :: 'e' :: 'a' :: 'm' :: ':' :: tail)).map (· + 1) :=
    findSep_cons_not_pre _ _ _ (by simp [STREAMSEP, List.isPrefixOf])
  have h2 : findSep STREAMSEP ('o' :: ' ' :: 's' :: 't' :: 'r' :: 'e' :: 'a' :: 'm' :: ':' :: tail)
      = (findSep STREAMSEP (' ' :: 's' :: 't' :: 'r' :: 'e' :: 'a' :: 'm' :: ':' :: tail)).map (· + 1) :=
    findSep_cons_not_pre _ _ _ (by simp [STREAMSEP, List.isPrefixOf])
  have h3 : findSep STREAMSEP ('e' :: 'o' :: ' ' :: 's' :: 't' :: 'r' :: 'e' :: 'a' :: 'm' :: ':' :: tail)
      = (findSep STREAMSEP ('o' :: ' ' :: 's' :: 't' :: 'r' :: 'e' :: 'a' :: 'm' :: ':' :: tail)).map (· + 1) :=
    findSep_cons_not_pre _ _ _ (by simp [STREAMSEP, List.isPrefixOf])
  have h4 : findSep STREAMSEP ('d' :: 'e' :: 'o' :: ' ' :: 's' :: 't' :: 'r' :: 'e' :: 'a' :: 'm' :: ':' :: tail)
      = (findSep STREAMSEP ('e' :: 'o' :: ' ' :: 's' :: 't' :: 'r' :: 'e' :: 'a' :: 'm' :: ':' :: tail)).map (· + 1) :=
    findSep_cons_not_pre _ _ _ (by simp [STREAMSEP, List.isPrefixOf])
  have h5 : findSep STREAMSEP ('i' :: 'd' :: 'e' :: 'o' :: ' ' :: 's' :: 't' :: 'r' :: 'e' :: 'a' :: 'm' :: ':' :: tail)
      = (findSep STREAMSEP ('d' :: 'e' :: 'o' :: ' ' :: 's' :: 't' :: 'r' :: 'e' :: 'a' :: 'm' :: ':' :: tail)).map (· + 1) :=
    findSep_cons_not_pre _ _ _ (by simp [STREAMSEP, List.isPrefixOf])
  have h6 : findSep STREAMSEP ('V' :: 'i' :: 'd' :: 'e' :: 'o' :: ' ' :: 's' :: 't' :: 'r' :: 'e' :: 'a' :: 'm' :: ':' :: tail)
      = (findSep STREAMSEP ('i' :: 'd' :: 'e' :: 'o' :: ' ' :: 's' :: 't' :: 'r' :: 'e' :: 'a' :: 'm' :: ':' :: tail)).map (· + 1) :=
    findSep_cons_not_pre _ _ _ (by simp [STREAMSEP, List.isPrefixOf])
  rw [h6, h5, h4, h3, h2, h1, h0]
  rfl

theorem resolutionFromChunk_of_pieces (text afterSep ratio p0 p1 : JStr)
    (h1 : (jsSplit text STREAMSEP).get? 1 = some afterSep)
    (h2 : ((jsSplit afterSep ['\n']).get? 0).getD [] = ratio)
    (h3 : jsSplit ratio ['x'] = [p0, p1]) :
    resolutionFromChunk text
      = some { w := jsParseInt (jsTrim p0), h := jsParseInt (jsTrim p1) } := by
  unfold resolutionFromChunk
  rw [h1]
  simp only [h2, h3]
  rfl



theorem isPrefixOf_cons_cons (a b : Char) (as bs : JStr) :
    ((a :: as).isPrefixOf (b :: bs) = true) ↔ (a = b ∧ as.isPrefixOf bs = true) := by
  simp [List.isPrefixOf]

theorem findSep_none_no_prefix (sep : JStr) :
    ∀ s : JStr, findSep sep s = none → ∀ k, sep.isPrefixOf (s.drop k) = false := by
  intro s
  induction s with
  | nil =>
    intro h k
    by_cases hsep : sep = []
    · subst hsep; simp [findSep] at h
    · cases sep with
      | nil => exact absurd rfl hsep
      | cons a as => simp [List.isPrefixOf]
  | cons c rest ih =>
    intro h k
    rw [findSep_cons] at h
    by_cases hp : sep.isPrefixOf (c :: rest) = true
    · rw [if_pos hp] at h; simp at h
    · rw [if_neg hp] at h
      have hrest : findSep sep rest = none := Option.map_eq_none'.mp h
      cases k with
      | zero =>
        rw [List.drop_zero]
        cases hb : sep.isPrefixOf (c :: rest) with
        | false => rfl
        | true => exact absurd hb hp
      | succ k2 => simpa using ih hrest k2

theorem findSep_some_prefixOf (sep : JStr) :
    ∀ (s : JStr) (j : Nat), findSep sep s = some j → sep.isPrefixOf (s.drop j) = true := by
  intro s
  induction s with
  | nil =>
    intro j h
    by_cases hsep : sep = []
    · subst hsep
      simp [findSep] at h
      subst h
      simp [List.isPrefixOf]
    · simp [findSep, hsep] at h
  | cons c rest ih =>
    intro j h
    rw [findSep_cons] at h
    by_cases hp : sep.isPrefixOf (c :: rest) = true
    · rw [if_pos hp] at h
      have hj : j = 0 := by simpa using h.symm
      subst hj
      simpa using hp
    · rw [if_neg hp] at h
      obtain ⟨j2, hj2, hj⟩ := Option.map_eq_some'.mp h
      subst hj
      simpa using ih j2 hj2

theorem findSep_singleton_none_mem (c0 : Char) :
    ∀ l : JStr, findSep [c0] l = none → ∀ c ∈ l, c ≠ c0 := by
  intro l
  induction l with
  | nil => intro _ c hc; simp at hc
  | cons d rest ih =>
    intro h c hc
    rw [findSep_cons] at h
    by_cases hp : List.isPrefixOf [c0] (d :: rest) = true
    · rw [if_pos hp] at h; simp at h
    · rw [if_neg hp] at h
      have hrest := Option.map_eq_none'.mp h
      have hd : d ≠ c0 := by
        intro he
        subst he
        exact hp (by simp [List.isPrefixOf])
      rcases List.mem_cons.mp hc with rfl | hm
      · exact hd
      · exact ih hrest c hm

theorem findSep_singleton_take (c0 : Char) :
    ∀ (l : JStr) (j : Nat), findSep [c0] l = some j →
      l.take j = l.takeWhile (fun c => !(c == c0)) := by
  intro l
  induction l with
  | nil => intro j h; simp [findSep] at h
  | cons d rest ih =>
    intro j h
    rw [findSep_cons] at h
    by_cases hp : List.isPrefixOf [c0] (d :: rest) = true
    · rw [if_pos hp] at h
      have hj : j = 0 := by simpa using h.symm
      subst hj
      have hd : c0 = d := by simpa [List.isPrefixOf] using hp
      subst hd
      simp [List.takeWhile_cons]
    · rw [if_neg hp] at h
      obtain ⟨j2, hj2, hj⟩ := Option.map_eq_some'.mp h
      subst hj
      have hd : (d == c0) = false := by
        by_contra hcon
        have hdc : d = c0 := by simpa using hcon
        subst hdc
        exact hp (by simp [List.isPrefixOf])
      simp [List.take_succ_cons, List.takeWhile_cons, hd, ih j2 hj2]

theorem jsSplit_nl_head (l : JStr) :
    ((jsSplit l ['\n']).get? 0).getD [] = firstLine l := by
  cases hf : findSep ['\n'] l with
  | none =>
    rw [jsSplit_of_none _ _ hf]
    show l = firstLine l
    unfold firstLine
    refine (takeWhile_all _ _ (fun c hc => ?_)).symm
    have := findSep_singleton_none_mem _ _ hf c hc
    simp [this]
  | some j =>
    rw [jsSplit_of_some _ _ _ (by decide) hf]
    show l.take j = firstLine l
    exact findSep_singleton_take _ _ _ hf

theorem takeWhile_append_stop (p : Char → Bool) (d : Char) :
    ∀ (a b : JStr), (∀ c ∈ a, p c = true) → p d = false →
      (a ++ (d :: b)).takeWhile p = a := by
  intro a
  induction a with
  | nil => intro b _ hd; simp [List.takeWhile_cons, hd]
  | cons c a2 ih =>
    intro b ha hd
    rw [List.cons_append, List.takeWhile_cons, if_pos (ha c (by simp))]
    rw [ih b (fun x hx => ha x (by simp [hx])) hd]

theorem dropWhile_append_all (p : Char → Bool) :
    ∀ (a b : JStr), (∀ c ∈ a, p c = true) →
      (a ++ b).dropWhile p = b.dropWhile p := by
  intro a
  induction a with
  | nil => intro b _; rfl
  | cons c a2 ih =>
    intro b ha
    rw [List.cons_append, List.dropWhile_cons, if_pos (ha c (by simp))]
    exact ih b (fun x hx => ha x (by simp [hx]))

theorem jsTrim_ws_wrap (w1 core w2 : JStr) (hne : core ≠ [])
    (h1 : ∀ c ∈ w1, jsIsWhitespace c = true)
    (h2 : ∀ c ∈ w2, jsIsWhitespace c = true)
    (hc : ∀ c ∈ core, jsIsWhitespace c = false) :
    jsTrim (w1 ++ (core ++ w2)) = core := by
  obtain ⟨c, rest, rfl⟩ := List.exists_cons_of_ne_nil hne
  unfold jsTrim
  rw [dropWhile_append_all _ _ _ h1]
  rw [List.cons_append, List.dropWhile_cons, if_neg (by simp [hc c (by simp)])]
  rw [show (c :: (rest ++ w2)).reverse = w2.reverse ++ ((c :: rest).reverse) from by simp]
  rw [dropWhile_append_all _ _ _ (fun x hx => h2 x (List.mem_reverse.mp hx))]
  rw [dropWhile_none_dropped _ _ (fun x hx => hc x (List.mem_reverse.mp hx))]
  simp

theorem findSep_append_shift (sep : JStr) :
    ∀ (a b : JStr), (∀ k, k < a.length → sep.isPrefixOf ((a ++ b).drop k) = false) →
      findSep sep (a ++ b) = (findSep sep b).map (· + a.length) := by
  intro a
  induction a with
  | nil =>
    intro b _
    simp only [List.nil_append, List.length_nil]
    cases findSep sep b <;> simp
  | cons c a2 ih =>
    intro b h
    rw [List.cons_append, findSep_cons_not_pre _ _ _ (by
      have h0 := h 0 (by simp)
      simpa using h0)]
    rw [ih b (fun k hk => by
      have hs := h (k + 1) (by simp only [List.length_cons]; omega)
      simpa using hs)]
    cases findSep sep b with
    | none => rfl
    | some v => simp; omega

theorem isPrefixOf_append_left (sep : JStr) :
    ∀ (d b : JStr), sep.length ≤ d.length →
      sep.isPrefixOf (d ++ b) = sep.isPrefixOf d := by
  induction sep with
  | nil => intro d b _; simp [List.isPrefixOf]
  | cons s ss ih =>
    intro d b h
    cases d with
    | nil => exact absurd h (by simp)
    | cons c d2 =>
      rw [List.cons_append]
      show ((s == c) && ss.isPrefixOf (d2 ++ b)) = ((s == c) && ss.isPrefixOf d2)
      rw [ih d2 b (by simpa using h)]

theorem isPrefixOf_append_spill :
    ∀ (d sep b : JStr), d.length < sep.length → sep.isPrefixOf (d ++ b) = true →
      (sep.drop d.length).isPrefixOf b = true := by
  intro d
  induction d with
  | nil => intro sep b _ h; simpa using h
  | cons c d2 ih =>
    intro sep b hlen h
    cases sep with
    | nil => simp at hlen
    | cons s ss =>
      rw [List.cons_append] at h
      have h2 := (isPrefixOf_cons_cons _ _ _ _).mp h
      show (ss.drop d2.length).isPrefixOf b = true
      exact ih ss b (by simpa using hlen) h2.2

theorem findSep_isSome_of_prefix_at (sep : JStr) :
    ∀ (s : JStr) (k : Nat), sep.isPrefixOf (s.drop k) = true →
      (findSep sep s).isSome = true := by
  intro s
  induction s with
  | nil =>
    intro k h
    rw [List.drop_nil] at h
    have hsep : sep = [] := by
      cases sep with
      | nil => rfl
      | cons a as => simp [List.isPrefixOf] at h
    subst hsep
    simp [findSep]
  | cons c rest ih =>
    intro k h
    rw [findSep_cons]
    by_cases hp : sep.isPrefixOf (c :: rest) = true
    · rw [if_pos hp]; rfl
    · rw [if_neg hp]
      cases k with
      | zero =>
        rw [List.drop_zero] at h
        exact absurd h hp
      | succ k2 =>
        rw [List.drop_succ_cons] at h
        have hr := ih k2 h
        cases hfr : findSep sep rest with
        | none => rw [hfr] at hr; simp at hr
        | some v => rfl

theorem jsSplit_get1 (text : JStr) (i : Nat) (hfs : findSep STREAMSEP text = some i) :
    (jsSplit text STREAMSEP).get? 1
      = some (truncAtNextSep (text.drop (i + STREAMSEP.length))) := by
  rw [jsSplit_of_some _ _ _ (by decide) hfs]
  show (jsSplit (text.drop (i + STREAMSEP.length)) STREAMSEP).get? 0 = _
  cases hr : findSep STREAMSEP (text.drop (i + STREAMSEP.length)) with
  | none => rw [jsSplit_of_none _ _ hr]; simp [truncAtNextSep, hr]
  | some j => rw [jsSplit_of_some _ _ _ (by decide) hr]; simp [truncAtNextSep, hr]

theorem truncAtNextSep_keeps_line (A post : JStr) (hA : ∀ c ∈ A, c ≠ 's') :
    ∃ post2, truncAtNextSep (A ++ ('\n' :: post)) = A ++ ('\n' :: post2) := by
  unfold truncAtNextSep
  cases hf : findSep STREAMSEP (A ++ ('\n' :: post)) with
  | none => exact ⟨post, rfl⟩
  | some j =>
    have hpj := findSep_some_prefixOf STREAMSEP _ j hf
    have hj : A.length + 1 ≤ j := by
      by_contra hle
      push_neg at hle
      rcases Nat.lt_or_ge j A.length with hlt | hge
      · rw [List.drop_append_eq_append_drop] at hpj
        have hz : j - A.length = 0 := by omega
        rw [hz, List.drop_zero] at hpj
        have hdne : A.drop j ≠ [] := by
          intro hnil
          have hlen := congrArg List.length hnil
          rw [List.length_drop] at hlen
          simp at hlen
          omega
        obtain ⟨c, t, hct⟩ := List.exists_cons_of_ne_nil hdne
        rw [hct, List.cons_append,
          show STREAMSEP = 's' :: "tream:".toList from rfl] at hpj
        have hcs := ((isPrefixOf_cons_cons _ _ _ _).mp hpj).1
        have hcA : c ∈ A := List.mem_of_mem_drop (by rw [hct]; exact List.mem_cons_self _ _)
        exact hA c hcA hcs.symm
      · have hje : j = A.length := by omega
        rw [hje, List.drop_left] at hpj
        rw [show STREAMSEP = 's' :: "tream:".toList from rfl] at hpj
        have hsn := ((isPrefixOf_cons_cons _ _ _ _).mp hpj).1
        exact absurd hsn (by decide)
    refine ⟨post.take (j - A.length - 1), ?_⟩
    show List.take j (A ++ ('\n' :: post)) = A ++ ('\n' :: post.take (j - A.length - 1))
    rw [List.take_append_eq_append_take, List.take_of_length_le (by omega)]
    congr 1
    obtain ⟨m, hm⟩ : ∃ m, j - A.length = m + 1 := ⟨j - A.length - 1, by omega⟩
    rw [hm, List.take_succ_cons]
    simp

theorem ws_ne_x (c : Char) (h : jsIsWhitespace c = true) : c ≠ 'x' := by
  intro he
  subst he
  exact absurd h (by decide)

theorem line_char_ne_nl (c : Char)
    (h : (jsIsWhitespace c = true ∧ c ≠ '\n') ∨ c.isDigit = true ∨ c = 'x') : c ≠ '\n' := by
  rcases h with ⟨_, hne⟩ | hd | rfl
  · exact hne
  · exact digit_ne_nl c hd
  · decide

theorem line_char_ne_s (c : Char)
    (h : (jsIsWhitespace c = true ∧ c ≠ '\n') ∨ c.isDigit = true ∨ c = 'x') : c ≠ 's' := by
  rcases h with ⟨hws, _⟩ | hd | rfl
  · intro he; subst he; exact absurd hws (by decide)
  · intro he; subst he; exact absurd hd (by decide)
  · decide

theorem announcementLine_mem (ws1 wds ws2 ws3 hds ws4 : JStr)
    (hws1 : ∀ c ∈ ws1, jsIsWhitespace c = true ∧ c ≠ '\n')
    (hws2 : ∀ c ∈ ws2, jsIsWhitespace c = true ∧ c ≠ '\n')
    (hws3 : ∀ c ∈ ws3, jsIsWhitespace c = true ∧ c ≠ '\n')
    (hws4 : ∀ c ∈ ws4, jsIsWhitespace c = true ∧ c ≠ '\n')
    (hwd : ∀ c ∈ wds, c.isDigit = true) (hhd : ∀ c ∈ hds, c.isDigit = true) :
    ∀ c ∈ announcementLine ws1 wds ws2 ws3 hds ws4,
      (jsIsWhitespace c = true ∧ c ≠ '\n') ∨ c.isDigit = true ∨ c = 'x' := by
  intro c hc
  unfold announcementLine at hc
  simp only [List.mem_append, List.mem_cons] at hc
  rcases hc with h | h | h | h | h | h | h
  · exact Or.inl (hws1 c h)
  · exact Or.inr (Or.inl (hwd c h))
  · exact Or.inl (hws2 c h)
  · exact Or.inr (Or.inr h)
  · exact Or.inl (hws3 c h)
  · exact Or.inr (Or.inl (hhd c h))
  · exact Or.inl (hws4 c h)

/-- C3 (amended): for every chunk in which the first occurrence of
`"stream:"` is the well-formed announcement's own — an arbitrary prefix
containing no `"stream:"`, then the marker `"Video stream:"`, then the
whitespace-tolerant line `<ws><digits><ws>x<ws><digits><ws>` ended by a
newline, then arbitrary trailing text (later `"stream:"` occurrences
included) — the callback returns without raising and sets
VideoResolution to exactly the two announced integers; in particular
`"Video stream: 640 x 480\n"` sets `{640, 480}` (see the witness). -/
theorem announcement_sets_resolution
    (s : InterceptState) (pre ws1 wds ws2 ws3 hds ws4 post : JStr)
    (hpre : findSep STREAMSEP pre = none)
    (hw : wds ≠ []) (hh : hds ≠ [])
    (hwd : ∀ c ∈ wds, c.isDigit = true) (hhd : ∀ c ∈ hds, c.isDigit = true)
    (hws1 : ∀ c ∈ ws1, jsIsWhitespace c = true ∧ c ≠ '\n')
    (hws2 : ∀ c ∈ ws2, jsIsWhitespace c = true ∧ c ≠ '\n')
    (hws3 : ∀ c ∈ ws3, jsIsWhitespace c = true ∧ c ≠ '\n')
    (hws4 : ∀ c ∈ ws4, jsIsWhitespace c = true ∧ c ≠ '\n') :
    (interceptCallback s (announcementChunk pre ws1 wds ws2 ws3 hds ws4 post)).threw = false
      ∧ (interceptCallback s
          (announcementChunk pre ws1 wds ws2 ws3 hds ws4 post)).state.videoResolution
          = some { w := some ((digitsVal wds : Nat) : Int)
                   h := some ((digitsVal hds : Nat) : Int) } := by
  have hAmem := announcementLine_mem ws1 wds ws2 ws3 hds ws4 hws1 hws2 hws3 hws4 hwd hhd
  have hAnl : ∀ c ∈ announcementLine ws1 wds ws2 ws3 hds ws4, c ≠ '\n' :=
    fun c hc => line_char_ne_nl c (hAmem c hc)
  have hAs : ∀ c ∈ announcementLine ws1 wds ws2 ws3 hds ws4, c ≠ 's' :=
    fun c hc => line_char_ne_s c (hAmem c hc)
  have hchunkRest : ("Video stream:".toList
        ++ (announcementLine ws1 wds ws2 ws3 hds ws4 ++ ('\n' :: post)))
      = 'V' :: 'i' :: 'd' :: 'e' :: 'o' :: ' ' :: 's' :: 't' :: 'r' :: 'e' :: 'a' :: 'm' :: ':'
          :: (announcementLine ws1 wds ws2 ws3 hds ws4 ++ ('\n' :: post)) := rfl
  have h6 : findSep STREAMSEP ("Video stream:".toList
        ++ (announcementLine ws1 wds ws2 ws3 hds ws4 ++ ('\n' :: post))) = some 6 := by
    rw [hchunkRest]
    exact findSep_streamsep_at6 _
  have hnostart : ∀ k, k < pre.length →
      STREAMSEP.isPrefixOf ((pre ++ ("Video stream:".toList
        ++ (announcementLine ws1 wds ws2 ws3 hds ws4 ++ ('\n' :: post)))).drop k) = false := by
    intro k hk
    rw [List.drop_append_eq_append_drop]
    have hz : k - pre.length = 0 := by omega
    rw [hz, List.drop_zero]
    by_cases hlen : STREAMSEP.length ≤ (pre.drop k).length
    · rw [isPrefixOf_append_left _ _ _ hlen]
      exact findSep_none_no_prefix _ _ hpre k
    · cases hb : STREAMSEP.isPrefixOf ((pre.drop k)
          ++ ("Video stream:".toList
            ++ (announcementLine ws1 wds ws2 ws3 hds ws4 ++ ('\n' :: post)))) with
      | false => rfl
      | true =>
        exfalso
        have hspill := isPrefixOf_append_spill (pre.drop k) STREAMSEP
          ("Video stream:".toList ++ (announcementLine ws1 wds ws2 ws3 hds ws4 ++ ('\n' :: post)))
          (by omega) hb
        have hlen7 : STREAMSEP.length = 7 := by decide
        have hlt7 : (pre.drop k).length < 7 := by
          rw [hlen7] at hlen
          omega
        have hdropne : STREAMSEP.drop (pre.drop k).length ≠ [] := by
          intro hnil
          have hlenn := congrArg List.length hnil
          rw [List.length_drop, hlen7, List.length_nil] at hlenn
          omega
        obtain ⟨c, cs, hcc⟩ := List.exists_cons_of_ne_nil hdropne
        rw [hcc, hchunkRest] at hspill
        have hcv := ((isPrefixOf_cons_cons _ _ _ _).mp hspill).1
        have hcmem : c ∈ STREAMSEP :=
          List.mem_of_mem_drop (by rw [hcc]; exact List.mem_cons_self _ _)
        rw [hcv] at hcmem
        exact absurd hcmem (by decide)
  have hfirst : findSep STREAMSEP (announcementChunk pre ws1 wds ws2 ws3 hds ws4 post)
      = some (6 + pre.length) := by
    unfold announcementChunk
    rw [findSep_append_shift STREAMSEP pre _ hnostart, h6]
    rfl
  obtain ⟨post2, hT⟩ := truncAtNextSep_keeps_line
      (announcementLine ws1 wds ws2 ws3 hds ws4) post hAs
  have hdropChunk : (announcementChunk pre ws1 wds ws2 ws3 hds ws4 post).drop
        (6 + pre.length + STREAMSEP.length)
      = announcementLine ws1 wds ws2 ws3 hds ws4 ++ ('\n' :: post) := by
    have hidx : 6 + pre.length + STREAMSEP.length = pre.length + 13 := by
      have h7 : STREAMSEP.length = 7 := by decide
      omega
    rw [hidx]
    unfold announcementChunk
    rw [List.drop_append, hchunkRest]
    rfl
  have hget1 : (jsSplit (announcementChunk pre ws1 wds ws2 ws3 hds ws4 post) STREAMSEP).get? 1
      = some (announcementLine ws1 wds ws2 ws3 hds ws4 ++ ('\n' :: post2)) := by
    rw [jsSplit_get1 _ _ hfirst, hdropChunk, hT]
  have hratio : ((jsSplit (announcementLine ws1 wds ws2 ws3 hds ws4
        ++ ('\n' :: post2)) ['\n']).get? 0).getD []
      = announcementLine ws1 wds ws2 ws3 hds ws4 := by
    rw [jsSplit_nl_head]
    unfold firstLine
    exact takeWhile_append_stop _ '\n' _ post2
      (fun c hc => by simp [hAnl c hc]) (by decide)
  have hP0x : ∀ c ∈ ws1 ++ (wds ++ ws2), c ≠ 'x' := by
    intro c hc
    rcases List.mem_append.mp hc with h1 | h1
    · exact ws_ne_x c (hws1 c h1).1
    · rcases List.mem_append.mp h1 with h2 | h2
      · exact digit_ne_x c (hwd c h2)
      · exact ws_ne_x c (hws2 c h2).1
  have hP1x : ∀ c ∈ ws3 ++ (hds ++ ws4), c ≠ 'x' := by
    intro c hc
    rcases List.mem_append.mp hc with h1 | h1
    · exact ws_ne_x c (hws3 c h1).1
    · rcases List.mem_append.mp h1 with h2 | h2
      · exact digit_ne_x c (hhd c h2)
      · exact ws_ne_x c (hws4 c h2).1
  have hassocA : announcementLine ws1 wds ws2 ws3 hds ws4
      = (ws1 ++ (wds ++ ws2)) ++ ('x' :: (ws3 ++ (hds ++ ws4))) := by
    unfold announcementLine
    simp [List.append_assoc]
  have hfx : findSep ['x'] (announcementLine ws1 wds ws2 ws3 hds ws4)
      = some (ws1 ++ (wds ++ ws2)).length := by
    rw [hassocA, findSep_singleton_append _ _ _ hP0x,
      findSep_of_isPrefixOf _ _ (by simp [List.isPrefixOf])]
    simp
  have hparts : jsSplit (announcementLine ws1 wds ws2 ws3 hds ws4) ['x']
      = [ws1 ++ (wds ++ ws2), ws3 ++ (hds ++ ws4)] := by
    rw [jsSplit_of_some _ _ _ (by decide) hfx]
    congr 1
    · rw [hassocA]
      exact List.take_left _ _
    · rw [hassocA, List.drop_append]
      show jsSplit (ws3 ++ (hds ++ ws4)) ['x'] = [ws3 ++ (hds ++ ws4)]
      exact jsSplit_of_none _ _ (findSep_singleton_none _ _ hP1x)
  have htrim0 : jsTrim (ws1 ++ (wds ++ ws2)) = wds :=
    jsTrim_ws_wrap ws1 wds ws2 hw (fun c hc => (hws1 c hc).1) (fun c hc => (hws2 c hc).1)
      (fun c hc => digit_not_ws c (hwd c hc))
  have htrim1 : jsTrim (ws3 ++ (hds ++ ws4)) = hds :=
    jsTrim_ws_wrap ws3 hds ws4 hh (fun c hc => (hws3 c hc).1) (fun c hc => (hws4 c hc).1)
      (fun c hc => digit_not_ws c (hhd c hc))
  have hpw : jsParseInt wds = some ((digitsVal wds : Nat) : Int) := jsParseInt_digits wds hw hwd
  have hph : jsParseInt hds = some ((digitsVal hds : Nat) : Int) := jsParseInt_digits hds hh hhd
  have hr : resolutionFromChunk (announcementChunk pre ws1 wds ws2 ws3 hds ws4 post)
      = some { w := some ((digitsVal wds : Nat) : Int)
               h := some ((digitsVal hds : Nat) : Int) } := by
    rw [resolutionFromChunk_of_pieces _ _ _ _ _ hget1 hratio hparts, htrim0, htrim1, hpw, hph]
  have hm : (findSep MARKER (announcementChunk pre ws1 wds ws2 ws3 hds ws4 post)).isSome = true := by
    apply findSep_isSome_of_prefix_at MARKER _ pre.length
    unfold announcementChunk
    rw [List.drop_left]
    exact List.isPrefixOf_iff_prefix.mpr (List.prefix_append _ _)
  simp [interceptCallback, hm, hr]

/-- Witness for `announcement_sets_resolution` at width 640 and height
480, with a prefix line `"ready\n"` before the marker, a doubled space
after the colon, and trailing text containing a later `"stream:"`: the
chunk is `"ready\nVideo stream:  640 x 480\nlater stream: junk"` and the
stored value is `{640, 480}`. -/
theorem announcement_sets_resolution_witness :
    (findSep STREAMSEP "ready\n".toList = none
        ∧ ("640".toList : JStr) ≠ [] ∧ ("480".toList : JStr) ≠ []
        ∧ (∀ c ∈ ("640".toList : JStr), c.isDigit = true)
        ∧ (∀ c ∈ ("480".toList : JStr), c.isDigit = true)
        ∧ (∀ c ∈ ("  ".toList : JStr), jsIsWhitespace c = true ∧ c ≠ '\n')
        ∧ (∀ c ∈ (" ".toList : JStr), jsIsWhitespace c = true ∧ c ≠ '\n')
        ∧ (∀ c ∈ ([] : JStr), jsIsWhitespace c = true ∧ c ≠ '\n'))
      ∧ ((interceptCallback (initInterceptState false) c3WitnessChunk).threw = false
          ∧ (interceptCallback (initInterceptState false) c3WitnessChunk).state.videoResolution
              = some { w := some ((digitsVal "640".toList : Nat) : Int)
                       h := some ((digitsVal "480".toList : Nat) : Int) })
      ∧ c3WitnessChunk = "ready\nVideo stream:  640 x 480\nlater stream: junk".toList
      ∧ digitsVal "640".toList = 640
      ∧ digitsVal "480".toList = 480
      ∧ announcementChunk [] [' '] "640".toList [' '] [' '] "480".toList [] [] = chunk640
      ∧ (interceptCallback (initInterceptState false) chunk640).state.videoResolution
          = some { w := some 640, h := some 480 } :=
  ⟨⟨by decide, by decide, by decide, by decide, by decide, by decide, by decide, by decide⟩,
    announcement_sets_resolution (initInterceptState false) "ready\n".toList "  ".toList
      "640".toList " ".toList " ".toList "480".toList [] "later stream: junk".toList
      (by decide) (by decide) (by decide) (by decide) (by decide)
      (by decide) (by decide) (by decide) (by decide),
    by decide, by decide, by decide, by decide, by decide⟩

/-- C10 (amended): for every chunk whose first `"stream:"` occurrence is
at index `i`, the value the resolution parser computes is exactly the
parse of the text following that first occurrence, truncated at the next
`"stream:"` occurrence (a JavaScript `split` artifact) and then at the
next newline — not the text following the marker itself; consequently,
in a chunk where `"stream:"` occurs before `"Video stream:"`, such as
`"log stream: 1 x 2\nVideo stream: 640 x 480\n"`, the earlier
occurrence's remainder `" 1 x 2"` is parsed and `{1, 2}` is stored
rather than `{640, 480}`, from any prior state. -/
theorem first_stream_occurrence_parsed (s : InterceptState) (text : JStr) (i : Nat)
    (hfs : findSep STREAMSEP text = some i) :
    resolutionFromChunk text
        = ratioParse (firstLine (truncAtNextSep (text.drop (i + STREAMSEP.length))))
      ∧ ((interceptCallback s c10EarlyChunk).threw = false
          ∧ (interceptCallback s c10EarlyChunk).state.videoResolution
              = some { w := some 1, h := some 2 }) := by
  constructor
  · have hget1 := jsSplit_get1 text i hfs
    unfold resolutionFromChunk ratioParse
    simp only [hget1, jsSplit_nl_head]
  · have h1 : (findSep MARKER c10EarlyChunk).isSome = true := by decide
    have h2 : resolutionFromChunk c10EarlyChunk = some { w := some 1, h := some 2 } := by decide
    simp [interceptCallback, h1, h2]

/-- Witness for `first_stream_occurrence_parsed` at the chunk
`"log stream: 1 x 2\nVideo stream: 640 x 480\n"`, whose first
`"stream:"` occurrence is at index 4. -/
theorem first_stream_occurrence_parsed_witness :
    findSep STREAMSEP c10EarlyChunk = some 4
      ∧ (resolutionFromChunk c10EarlyChunk
            = ratioParse (firstLine (truncAtNextSep (c10EarlyChunk.drop (4 + STREAMSEP.length))))
          ∧ ((interceptCallback (initInterceptState false) c10EarlyChunk).threw = false
              ∧ (interceptCallback (initInterceptState false) c10EarlyChunk).state.videoResolution
                  = some { w := some 1, h := some 2 })) :=
  ⟨by decide, first_stream_occurrence_parsed (initInterceptState false) c10EarlyChunk 4 (by decide)⟩
